import Mathlib

/-!
Shallow embedding of the `dicom-rs` DICOM Part-10 reader.

Byte buffers are `List Nat` (each entry one byte, values < 256 in any
real input).  Offsets are `Nat`; the Rust `&mut usize` cursor becomes
explicit state passing: every primitive returns the value read together
with the new offset, or `none` on truncation, exactly as the source's
`Option` returns.  Rust strings are embedded as `List Char`.
The file-system half of `read_dicom` (opening the path, `read_to_end`)
is outside the core per the spec; the embedding starts from the
in-memory buffer.
-/

set_option maxRecDepth 10000

/-- Converts a Lean string literal into the `List Char` representation
used for embedded Rust strings. -/
def chars (s : String) : List Char := s.data

/-- Byte-order selector, from `enum Endianness` in `modules/io/mod.rs`. -/
inductive Endianness where
  | Little
  | Big
deriving DecidableEq

/-- VR encoding mode, from `enum VrMode` in `modules/io/mod.rs`. -/
inductive VrMode where
  | Explicit
  | Implicit
deriving DecidableEq

/-- From `struct TransferSyntax` in `modules/io/mod.rs`. -/
structure TransferSyntax where
  endian : Endianness
  vr_mode : VrMode
deriving DecidableEq

/-- From `fn ts_from_uid` in `modules/io/mod.rs`: the fixed mini-table
resolving a Transfer Syntax UID string. -/
def ts_from_uid (uid : List Char) : TransferSyntax :=
  if uid = chars "1.2.840.10008.1.2" then
    { endian := .Little, vr_mode := .Implicit }
  else if uid = chars "1.2.840.10008.1.2.1" then
    { endian := .Little, vr_mode := .Explicit }
  else if uid = chars "1.2.840.10008.1.2.2" then
    { endian := .Big, vr_mode := .Explicit }
  else
    { endian := .Little, vr_mode := .Explicit }

/-- From `fn read_u16` in `modules/io/mod.rs`: bounds-checked 16-bit read,
returning the value and the advanced cursor. -/
def read_u16 (buf : List Nat) (off : Nat) (e : Endianness) : Option (Nat × Nat) :=
  if buf.length < off + 2 then none
  else
    let b0 := buf.getD off 0
    let b1 := buf.getD (off + 1) 0
    some (match e with
      | .Little => b0 + 256 * b1
      | .Big => 256 * b0 + b1, off + 2)

/-- From `fn read_u32` in `modules/io/mod.rs`: bounds-checked 32-bit read. -/
def read_u32 (buf : List Nat) (off : Nat) (e : Endianness) : Option (Nat × Nat) :=
  if buf.length < off + 4 then none
  else
    let b0 := buf.getD off 0
    let b1 := buf.getD (off + 1) 0
    let b2 := buf.getD (off + 2) 0
    let b3 := buf.getD (off + 3) 0
    some (match e with
      | .Little => b0 + 256 * b1 + 65536 * b2 + 16777216 * b3
      | .Big => 16777216 * b0 + 65536 * b1 + 256 * b2 + b3, off + 4)

/-- From `struct ElemHeader` in `modules/io/mod.rs`. -/
structure ElemHeader where
  group : Nat
  element : Nat
  vr : Option (Nat × Nat)
  len : Nat
deriving DecidableEq

/-- The long-form VR test from `read_elem_header`:
`matches!(&vr, b"OB" | b"OW" | b"OF" | b"SQ" | b"UT" | b"UN")`,
with the two VR bytes given as ASCII codes. -/
def vrIsLong (vr : Nat × Nat) : Bool :=
  vr == (0x4F, 0x42) || vr == (0x4F, 0x57) || vr == (0x4F, 0x46) ||
  vr == (0x53, 0x51) || vr == (0x55, 0x54) || vr == (0x55, 0x4E)

/-- From `fn read_elem_header` in `modules/io/mod.rs`: reads the tag and,
per VR mode, the explicit short/long or implicit header layout. -/
def read_elem_header (buf : List Nat) (off : Nat) (endian : Endianness)
    (vr_mode : VrMode) : Option (ElemHeader × Nat) :=
  match read_u16 buf off endian with
  | none => none
  | some (group, o1) =>
    match read_u16 buf o1 endian with
    | none => none
    | some (element, o2) =>
      match vr_mode with
      | .Explicit =>
        if buf.length < o2 + 2 then none
        else
          let vr0 := buf.getD o2 0
          let vr1 := buf.getD (o2 + 1) 0
          let o3 := o2 + 2
          if vrIsLong (vr0, vr1) then
            if buf.length < o3 + 2 then none
            else
              match read_u32 buf (o3 + 2) endian with
              | none => none
              | some (len, o5) =>
                some ({ group := group, element := element,
                        vr := some (vr0, vr1), len := len }, o5)
          else
            if buf.length < o3 + 2 then none
            else
              let l := match endian with
                | .Little => buf.getD o3 0 + 256 * buf.getD (o3 + 1) 0
                | .Big => 256 * buf.getD o3 0 + buf.getD (o3 + 1) 0
              some ({ group := group, element := element,
                      vr := some (vr0, vr1), len := l }, o3 + 2)
      | .Implicit =>
        match read_u32 buf o2 endian with
        | none => none
        | some (len, o3) =>
          some ({ group := group, element := element,
                  vr := none, len := len }, o3)

example : read_u16 [0x02, 0x00] 0 .Little = some (2, 2) := by decide
example : read_elem_header [0x02, 0x00, 0x10, 0x00, 0x55, 0x49, 0x14, 0x00] 0
    .Little .Explicit =
    some ({ group := 2, element := 16, vr := some (0x55, 0x49), len := 20 }, 8) := by
  decide

/-- From `enum DicomVr` in `dataelem.rs`: the 37 VR codes. -/
inductive DicomVr where
  | Ae | As | At | Cs | Da | Ds | Dt | Fd | Fl | Is | Lo | Lt | Ob
  | ObOrOw | Od | Of | Ol | Ov | Ow | Pn | Sh | Sl | Sq | Ss | St | Sv
  | Tm | Uc | Ui | Ul | Un | Ur | Us | UsOrOw | UsOrSs | Ut | Uv
deriving DecidableEq

/-- From `struct DicomAttribute` in `dataelem.rs`. -/
structure DicomAttribute where
  tag : List Char
  name : List Char
  keyword : List Char
  vr : Option DicomVr
  vm : List Char
  attr_type : List Char
deriving DecidableEq

mutual
/-- From `enum DataElementValue` in `dataelem.rs`.  The `Float` and
`Double` variants carry the raw IEEE-754 bit pattern as a `Nat` (the
integer the same bytes decode to in the same endianness): the reader
only ever moves these bits, never computes with them. -/
inductive DataElementValue where
  | Sequence (items : List DataElement)
  | String (s : List Char)
  | Data (b : List Nat)
  | Int16 (v : Int)
  | Int32 (v : Int)
  | Int64 (v : Int)
  | UInt16 (v : Nat)
  | UInt32 (v : Nat)
  | UInt64 (v : Nat)
  | Float (bits : Nat)
  | Double (bits : Nat)
  | Tag (g : Nat) (e : Nat)

/-- From `struct DataElement` in `dataelem.rs`: an attribute reference
plus an optional value.  The source field `attribute` is named `attr`
here because `attribute` is a reserved word in Lean. -/
inductive DataElement where
  | mk (attr : DicomAttribute) (value : Option DataElementValue)
end

/-- Projection for the `attribute` field of `DataElement`. -/
def DataElement.attr : DataElement → DicomAttribute
  | .mk a _ => a

/-- Projection for the `value` field of `DataElement`. -/
def DataElement.value : DataElement → Option DataElementValue
  | .mk _ v => v

/-- The Unicode whitespace test behind Rust's `str::trim`
(`char::is_whitespace`). -/
def isRustWhite (c : Char) : Bool :=
  c = ' ' || c = '\t' || c = '\n' || c = Char.ofNat 0x0B || c = Char.ofNat 0x0C ||
  c = '\r' || c = Char.ofNat 0x85 || c = Char.ofNat 0xA0 || c = Char.ofNat 0x1680 ||
  (Char.ofNat 0x2000 ≤ c && c ≤ Char.ofNat 0x200A) ||
  c = Char.ofNat 0x2028 || c = Char.ofNat 0x2029 || c = Char.ofNat 0x202F ||
  c = Char.ofNat 0x205F || c = Char.ofNat 0x3000

/-- Rust `str::trim`: drop leading and trailing whitespace. -/
def trimChars (l : List Char) : List Char :=
  ((l.dropWhile isRustWhite).reverse.dropWhile isRustWhite).reverse

/-- Rust `char::is_ascii_hexdigit`. -/
def isAsciiHexdigit (c : Char) : Bool :=
  ('0' ≤ c && c ≤ '9') || ('a' ≤ c && c ≤ 'f') || ('A' ≤ c && c ≤ 'F')

/-- Rust `char::to_ascii_uppercase`. -/
def toAsciiUpper (c : Char) : Char :=
  if 'a' ≤ c && c ≤ 'z' then Char.ofNat (c.toNat - 32) else c

/-- From `fn normalize_tag` in `dataelem.rs`: verbatim parenthesized
branch, 8-hex-digit reformatting branch, or pass-through. -/
def normalize_tag (id_or_tag : List Char) : List Char :=
  let s := trimChars id_or_tag
  if s.head? = some '(' ∧ s.getLast? = some ')' ∧ ',' ∈ s then s
  else
    let hex := (s.filter isAsciiHexdigit).map toAsciiUpper
    if hex.length = 8 then
      '(' :: (hex.take 4 ++ [','] ++ hex.drop 4 ++ [')'])
    else s

/-- Modelled from the spec: the generated dictionary module
(`crate::dicts`, with `ATTRIBUTES`, `TAG_INDEX`, `KEYWORD_INDEX`) is not
part of the sources; the dictionary is therefore a parameter, a list of
attributes.  Under the spec's invariants (tag strings unique, index
sorted and consistent with the table) the binary search plus
linear-scan fallback of `fn attribute_by_tag` in `dataelem.rs` resolves
to the first attribute whose canonical tag equals the normalized input,
which is how it is embedded here. -/
def attribute_by_tag (dict : List DicomAttribute) (id_or_tag : List Char) :
    Option DicomAttribute :=
  let normalized := normalize_tag id_or_tag
  dict.find? (fun attr => attr.tag == normalized)

/-- Modelled from the spec: keyword lookup `fn attribute_by_keyword` in
`dataelem.rs` over the same missing generated dictionary; under the
spec's invariants (keywords unique, sorted index) it resolves to the
first attribute whose keyword equals the input exactly. -/
def attribute_by_keyword (dict : List DicomAttribute) (keyword : List Char) :
    Option DicomAttribute :=
  dict.find? (fun attr => attr.keyword == keyword)

/-- From `struct Dataset` in `dataset.rs`. -/
structure Dataset where
  file_meta : List DataElement
  data_elements : List DataElement
  pixel_data : Option (List Nat)

/-- From `Dataset::new` in `dataset.rs`. -/
def Dataset.new : Dataset :=
  { file_meta := [], data_elements := [], pixel_data := none }

/-- From `Dataset::set_file_meta` in `dataset.rs` (defined in the source
but never called by the reader). -/
def Dataset.set_file_meta (ds : Dataset) (m : List DataElement) : Dataset :=
  { ds with file_meta := m }

/-- From `Dataset::push` in `dataset.rs`: append to the main-element list. -/
def Dataset.push (ds : Dataset) (elem : DataElement) : Dataset :=
  { ds with data_elements := ds.data_elements ++ [elem] }

/-- From `Dataset::set_pixel_data` in `dataset.rs`. -/
def Dataset.set_pixel_data (ds : Dataset) (d : List Nat) : Dataset :=
  { ds with pixel_data := some d }

/-- From `Dataset::elements` in `dataset.rs`. -/
def Dataset.elements (ds : Dataset) : List DataElement :=
  ds.data_elements

/-- From `Dataset::get` in `dataset.rs`: tag interpretation first, then
keyword; for the resolved attribute search file-meta then main elements
by tag-string equality. -/
def Dataset.get (dict : List DicomAttribute) (ds : Dataset)
    (tag_or_keyword : List Char) : Option DataElement :=
  match attribute_by_tag dict tag_or_keyword with
  | some attr =>
    match ds.file_meta.find? (fun de => de.attr.tag == attr.tag) with
    | some found => some found
    | none => ds.data_elements.find? (fun de => de.attr.tag == attr.tag)
  | none =>
    match attribute_by_keyword dict tag_or_keyword with
    | some attr =>
      match ds.file_meta.find? (fun de => de.attr.tag == attr.tag) with
      | some found => some found
      | none => ds.data_elements.find? (fun de => de.attr.tag == attr.tag)
    | none => none

example : normalize_tag (chars "0010,0010") = chars "(0010,0010)" := by decide
example : normalize_tag (chars "00100010") = chars "(0010,0010)" := by decide
example : normalize_tag (chars " (0002,0010) ") = chars "(0002,0010)" := by decide

/-- UTF-8 continuation byte test (`0x80..=0xBF`), for the embedding of
Rust's `std::str::from_utf8` validation. -/
def utf8Cont (b : Nat) : Bool := decide (0x80 ≤ b ∧ b ≤ 0xBF)

/-- Second-byte constraint of a 3-byte UTF-8 sequence headed by `b`
(excludes overlong encodings and surrogates, as Rust's validator does). -/
def utf8ContE (b b1 : Nat) : Bool :=
  if b = 0xE0 then decide (0xA0 ≤ b1 ∧ b1 ≤ 0xBF)
  else if b = 0xED then decide (0x80 ≤ b1 ∧ b1 ≤ 0x9F)
  else utf8Cont b1

/-- Second-byte constraint of a 4-byte UTF-8 sequence headed by `b`
(excludes overlongs and code points above `0x10FFFF`). -/
def utf8ContF (b b1 : Nat) : Bool :=
  if b = 0xF0 then decide (0x90 ≤ b1 ∧ b1 ≤ 0xBF)
  else if b = 0xF4 then decide (0x80 ≤ b1 ∧ b1 ≤ 0x8F)
  else utf8Cont b1

/-- Embedding of Rust `std::str::from_utf8`: strict UTF-8 validation and
decoding; `none` on any invalid byte sequence. -/
def decodeUtf8 : List Nat → Option (List Char)
  | [] => some []
  | b :: rest =>
    if b ≤ 0x7F then (decodeUtf8 rest).map (fun cs => Char.ofNat b :: cs)
    else if 0xC2 ≤ b ∧ b ≤ 0xDF then
      match rest with
      | b1 :: rest2 =>
        if utf8Cont b1 then
          (decodeUtf8 rest2).map
            (fun cs => Char.ofNat ((b - 0xC0) * 0x40 + (b1 - 0x80)) :: cs)
        else none
      | [] => none
    else if 0xE0 ≤ b ∧ b ≤ 0xEF then
      match rest with
      | b1 :: b2 :: rest3 =>
        if utf8ContE b b1 && utf8Cont b2 then
          (decodeUtf8 rest3).map (fun cs =>
            Char.ofNat ((b - 0xE0) * 0x1000 + (b1 - 0x80) * 0x40 + (b2 - 0x80)) :: cs)
        else none
      | _ => none
    else if 0xF0 ≤ b ∧ b ≤ 0xF4 then
      match rest with
      | b1 :: b2 :: b3 :: rest4 =>
        if utf8ContF b b1 && utf8Cont b2 && utf8Cont b3 then
          (decodeUtf8 rest4).map (fun cs =>
            Char.ofNat ((b - 0xF0) * 0x40000 + (b1 - 0x80) * 0x1000 +
              (b2 - 0x80) * 0x40 + (b3 - 0x80)) :: cs)
        else none
      | _ => none
    else none

/-- Rust `str::trim_end_matches(['\0', ' '])` from the walker's text
branch: strip trailing NUL and space characters. -/
def trimNulSpace (cs : List Char) : List Char :=
  (cs.reverse.dropWhile (fun c => c = Char.ofNat 0 || c = ' ')).reverse

/-- The walker's string decoding:
`std::str::from_utf8(val).unwrap_or("")` followed by
`trim_end_matches(['\0', ' '])`. -/
def decodeText (val : List Nat) : List Char :=
  trimNulSpace ((decodeUtf8 val).getD [])

/-- 16-bit scalar value decode used by the walker
(`u16::from_le_bytes` / `from_be_bytes` on a 2-byte value slice). -/
def val_u16 (e : Endianness) (val : List Nat) : Nat :=
  match e with
  | .Little => val.getD 0 0 + 256 * val.getD 1 0
  | .Big => 256 * val.getD 0 0 + val.getD 1 0

/-- 32-bit scalar value decode on a 4-byte value slice. -/
def val_u32 (e : Endianness) (val : List Nat) : Nat :=
  match e with
  | .Little =>
    val.getD 0 0 + 256 * val.getD 1 0 + 65536 * val.getD 2 0 +
      16777216 * val.getD 3 0
  | .Big =>
    16777216 * val.getD 0 0 + 65536 * val.getD 1 0 + 256 * val.getD 2 0 +
      val.getD 3 0

/-- 64-bit scalar value decode on an 8-byte value slice. -/
def val_u64 (e : Endianness) (val : List Nat) : Nat :=
  match e with
  | .Little => val_u32 .Little (val.take 4) + 4294967296 * val_u32 .Little (val.drop 4)
  | .Big => 4294967296 * val_u32 .Big (val.take 4) + val_u32 .Big (val.drop 4)

/-- Two's-complement reinterpretation of a `w`-bit unsigned value, the
semantics of `i16/i32/i64::from_le_bytes` over the same bytes. -/
def toSigned (w : Nat) (v : Nat) : Int :=
  if v < 2 ^ (w - 1) then (v : Int) else (v : Int) - 2 ^ w

/-- The per-VR typed decode from the walker in `read_dicom`
(`modules/io/mod.rs` lines 253-298): text VRs decode as trimmed ASCII,
scalar VRs decode when the length matches the width and fall back to
raw `Data` otherwise, everything else keeps raw bytes.  Every arm
produces `some`, as in the source. -/
def parse_value (vr : Option DicomVr) (e : Endianness) (val : List Nat) :
    Option DataElementValue :=
  match vr with
  | some .Ae | some .As | some .Cs | some .Da | some .Ds | some .Dt
  | some .Is | some .Lo | some .Lt | some .Pn | some .Sh | some .St
  | some .Tm | some .Uc | some .Ui | some .Ur | some .Ut =>
    some (.String (decodeText val))
  | some .Us =>
    if val.length = 2 then some (.UInt16 (val_u16 e val)) else some (.Data val)
  | some .Ss =>
    if val.length = 2 then some (.Int16 (toSigned 16 (val_u16 e val)))
    else some (.Data val)
  | some .Ul =>
    if val.length = 4 then some (.UInt32 (val_u32 e val)) else some (.Data val)
  | some .Sl =>
    if val.length = 4 then some (.Int32 (toSigned 32 (val_u32 e val)))
    else some (.Data val)
  | some .Uv =>
    if val.length = 8 then some (.UInt64 (val_u64 e val)) else some (.Data val)
  | some .Sv =>
    if val.length = 8 then some (.Int64 (toSigned 64 (val_u64 e val)))
    else some (.Data val)
  | some .Fd =>
    if val.length = 8 then some (.Double (val_u64 e val)) else some (.Data val)
  | some .Fl =>
    if val.length = 4 then some (.Float (val_u32 e val)) else some (.Data val)
  | some .At =>
    if val.length = 4 then
      some (.Tag (val_u16 e (val.take 2)) (val_u16 e (val.drop 2)))
    else some (.Data val)
  | _ => some (.Data val)

/-- Uppercase hexadecimal digit character for `d < 16`. -/
def hexDigit (d : Nat) : Char :=
  if d < 10 then Char.ofNat (48 + d) else Char.ofNat (55 + d)

/-- Four-digit zero-padded uppercase hex, the `{:04X}` format used for
tag strings and diagnostics. -/
def hex4 (n : Nat) : List Char :=
  [hexDigit (n / 4096 % 16), hexDigit (n / 256 % 16),
   hexDigit (n / 16 % 16), hexDigit (n % 16)]

/-- The walker's canonical tag string
`format!("({:04X},{:04X})", group, element)`. -/
def tagString (group element : Nat) : List Char :=
  '(' :: (hex4 group ++ [','] ++ hex4 element ++ [')'])

/-- The stderr line for the undefined-length sentinel in `read_dicom`. -/
def undefLenMsg (group element : Nat) : List Char :=
  chars "Encountered undefined length at " ++ tagString group element ++
    chars "; stop for now"

/-- The stderr line for a truncated value in `read_dicom`. -/
def truncMsg (group element : Nat) : List Char :=
  chars "Truncated value at " ++ tagString group element

example : tagString 0x7FE0 0x10 = chars "(7FE0,0010)" := by decide
example : decodeText ((chars "CT ").map Char.toNat) = chars "CT" := by decide

/-- The ASCII bytes of `"DICM"` compared against `buffer[128..132]`. -/
def dicmBytes : List Nat := [0x44, 0x49, 0x43, 0x4D]

/-- The scan loop of `fn parse_file_meta` in `modules/io/mod.rs`: in
fixed Explicit Little Endian, read headers; a non-0x0002 group rewinds
and yields the saved offset; a value overrunning the buffer or a failed
header read yields the source-level failure `some none`; otherwise skip
the value and continue.  The extra outer `Option` layer is a fuel
artifact: the outer `none` (fuel exhausted) is proved unreachable for
fuel of at least `buf.length + 8`. -/
def fileMetaLoop (buf : List Nat) (fuel : Nat) (off : Nat) : Option (Option Nat) :=
  match read_elem_header buf off .Little .Explicit with
  | none => some none
  | some (h, off1) =>
    if h.group ≠ 0x0002 then some (some off)
    else if buf.length < off1 + h.len then some none
    else
      match fuel with
      | 0 => none
      | fuel' + 1 => fileMetaLoop buf fuel' (off1 + h.len)

/-- From `fn parse_file_meta` in `modules/io/mod.rs`: run the group-0002
scan from `off`, then resolve the transfer syntax.  The source
initializes `ts_uid` to the empty string and never assigns it inside
the loop, so the `ts_uid.is_empty()` branch always takes the
Implicit-Little fallback; the dead conditional is kept verbatim.
Outer `none` is the (unreachable) fuel artifact; inner `none` is the
source's `None`. -/
def parse_file_meta (buf : List Nat) (off : Nat) :
    Option (Option (TransferSyntax × Nat)) :=
  (fileMetaLoop buf (buf.length + 8) off).map (fun r =>
    r.map (fun off1 =>
      let ts_uid : List Char := []
      let ts := if ts_uid.isEmpty then ts_from_uid (chars "1.2.840.10008.1.2")
        else ts_from_uid ts_uid
      (ts, off1)))

/-- The main dataset loop of `fn read_dicom` in `modules/io/mod.rs`:
stop when fewer than 8 bytes remain or a header read fails; stop with a
diagnostic on the undefined-length sentinel or a value overrun; route
pixel data to its slot; look up the attribute and append a typed
element, or skip silently when the dictionary misses.  Diagnostics
accumulate the stderr lines in order.  The outer `none` is the fuel
artifact, proved unreachable for fuel of at least `buf.length + 8`. -/
def mainLoop (dict : List DicomAttribute) (buf : List Nat) (ts : TransferSyntax)
    (fuel : Nat) (off : Nat) (ds : Dataset) (diags : List (List Char)) :
    Option (Dataset × List (List Char)) :=
  if buf.length < off + 8 then some (ds, diags)
  else
    match read_elem_header buf off ts.endian ts.vr_mode with
    | none => some (ds, diags)
    | some (h, off1) =>
      if h.len = 0xFFFFFFFF then
        some (ds, diags ++ [undefLenMsg h.group h.element])
      else if buf.length < off1 + h.len then
        some (ds, diags ++ [truncMsg h.group h.element])
      else
        match fuel with
        | 0 => none
        | fuel' + 1 =>
          let val := (buf.drop off1).take h.len
          let off2 := off1 + h.len
          let tag_str := tagString h.group h.element
          if h.group = 0x7FE0 ∧ h.element = 0x0010 then
            match attribute_by_tag dict tag_str with
            | some attr =>
              mainLoop dict buf ts fuel' off2
                ((ds.set_pixel_data val).push (DataElement.mk attr none)) diags
            | none => mainLoop dict buf ts fuel' off2 (ds.set_pixel_data val) diags
          else
            match attribute_by_tag dict tag_str with
            | some attr =>
              mainLoop dict buf ts fuel' off2
                (ds.push (DataElement.mk attr (parse_value attr.vr ts.endian val)))
                diags
            | none => mainLoop dict buf ts fuel' off2 ds diags

/-- From `fn read_dicom` in `modules/io/mod.rs`, minus the file-system
half (out of scope per the spec): length and `"DICM"` preamble checks,
file-meta parse, then the main loop, together with the accumulated
stderr diagnostics.  The outer `none` is the fuel artifact, proved
unreachable for every input. -/
def read_dicom_run (dict : List DicomAttribute) (buf : List Nat) :
    Option (Dataset × List (List Char)) :=
  if buf.length < 132 then some (Dataset.new, [])
  else if (buf.drop 128).take 4 ≠ dicmBytes then some (Dataset.new, [])
  else
    match parse_file_meta buf 132 with
    | none => none
    | some none => some (Dataset.new, [])
    | some (some (ts, off)) => mainLoop dict buf ts (buf.length + 8) off Dataset.new []

/-- The dataset returned by the reader for a given dictionary and input
buffer (`read(bytes) → Dataset` of the spec's consumer API). -/
def read_dicom (dict : List DicomAttribute) (buf : List Nat) : Dataset :=
  ((read_dicom_run dict buf).getD (Dataset.new, [])).1

/-- The Transfer Syntax UID dictionary entry, as in the generated catalog. -/
def tsUidAttr : DicomAttribute :=
  { tag := chars "(0002,0010)", name := chars "Transfer Syntax UID",
    keyword := chars "TransferSyntaxUID", vr := some .Ui,
    vm := chars "1", attr_type := chars "1" }

/-- The Modality dictionary entry, as in the generated catalog. -/
def modalityAttr : DicomAttribute :=
  { tag := chars "(0008,0060)", name := chars "Modality",
    keyword := chars "Modality", vr := some .Cs,
    vm := chars "1", attr_type := chars "1" }

/-- The Patient Name dictionary entry, as in the generated catalog. -/
def patientNameAttr : DicomAttribute :=
  { tag := chars "(0010,0010)", name := chars "Patient Name",
    keyword := chars "PatientName", vr := some .Pn,
    vm := chars "1", attr_type := chars "2" }

/-- The Rows dictionary entry, as in the generated catalog. -/
def rowsAttr : DicomAttribute :=
  { tag := chars "(0028,0010)", name := chars "Rows",
    keyword := chars "Rows", vr := some .Us,
    vm := chars "1", attr_type := chars "1" }

/-- The Pixel Data dictionary entry, as in the generated catalog. -/
def pixelDataAttr : DicomAttribute :=
  { tag := chars "(7FE0,0010)", name := chars "Pixel Data",
    keyword := chars "PixelData", vr := some .ObOrOw,
    vm := chars "1", attr_type := chars "1C" }

/-- Small concrete dictionary used for concrete evaluations: a cut of
the generated catalog restricted to the attributes the demonstration
buffers mention. -/
def sampleDict : List DicomAttribute :=
  [tsUidAttr, modalityAttr, patientNameAttr, rowsAttr, pixelDataAttr]

/-- A Part-10 preamble: 128 zero bytes then `"DICM"`. -/
def preamble : List Nat := List.replicate 128 0 ++ dicmBytes

/-- Demonstration buffer: File Meta carrying `(0002,0010)` with value
`"1.2.840.10008.1.2.1"` (Explicit VR Little Endian) padded by one NUL,
followed by a main-dataset element `(0008,0060)` in Implicit VR Little
Endian: tag, 32-bit length 2, value `"CT"`. -/
def c1buf : List Nat :=
  preamble ++
  [0x02, 0x00, 0x10, 0x00, 0x55, 0x49, 0x14, 0x00] ++
  ((chars "1.2.840.10008.1.2.1").map Char.toNat ++ [0]) ++
  [0x08, 0x00, 0x60, 0x00, 0x02, 0x00, 0x00, 0x00, 0x43, 0x54]

example : c1buf.length = 170 := by decide
example : parse_file_meta c1buf 132 =
    some (some ({ endian := .Little, vr_mode := .Implicit }, 160)) := by decide

/-- A successful 16-bit read advances the cursor by exactly 2 and stays
within bounds. -/
theorem read_u16_some {buf : List Nat} {off : Nat} {e : Endianness} {v o1 : Nat}
    (h : read_u16 buf off e = some (v, o1)) :
    o1 = off + 2 ∧ off + 2 ≤ buf.length := by
  unfold read_u16 at h
  split at h
  · exact absurd h (by simp)
  · next hb =>
    simp only [Option.some.injEq, Prod.mk.injEq] at h
    exact ⟨h.2.symm, by omega⟩

/-- A successful 32-bit read advances the cursor by exactly 4 and stays
within bounds. -/
theorem read_u32_some {buf : List Nat} {off : Nat} {e : Endianness} {v o1 : Nat}
    (h : read_u32 buf off e = some (v, o1)) :
    o1 = off + 4 ∧ off + 4 ≤ buf.length := by
  unfold read_u32 at h
  split at h
  · exact absurd h (by simp)
  · next hb =>
    simp only [Option.some.injEq, Prod.mk.injEq] at h
    exact ⟨h.2.symm, by omega⟩


/-- 16-bit big/little decode at an absolute buffer offset; the shape of
the multi-byte fields of a decoded element header. -/
def u16at (buf : List Nat) (o : Nat) (e : Endianness) : Nat :=
  match e with
  | .Little => buf.getD o 0 + 256 * buf.getD (o + 1) 0
  | .Big => 256 * buf.getD o 0 + buf.getD (o + 1) 0

/-- 32-bit big/little decode at an absolute buffer offset. -/
def u32at (buf : List Nat) (o : Nat) (e : Endianness) : Nat :=
  match e with
  | .Little => buf.getD o 0 + 256 * buf.getD (o + 1) 0 +
      65536 * buf.getD (o + 2) 0 + 16777216 * buf.getD (o + 3) 0
  | .Big => 16777216 * buf.getD o 0 + 65536 * buf.getD (o + 1) 0 +
      256 * buf.getD (o + 2) 0 + buf.getD (o + 3) 0

/-- Implicit-mode header equation: tag, then a 32-bit length; 8 bytes
consumed; `vr` absent. -/
theorem reh_implicit {buf : List Nat} {off : Nat} (e : Endianness)
    (h8 : off + 8 ≤ buf.length) :
    read_elem_header buf off e .Implicit =
    some ({ group := u16at buf off e, element := u16at buf (off + 2) e,
            vr := none, len := u32at buf (off + 4) e }, off + 8) := by
  have hA : ¬ buf.length < off + 2 := by omega
  have hB : ¬ buf.length < off + 2 + 2 := by omega
  have hC : ¬ buf.length < off + 2 + 2 + 4 := by omega
  simp only [read_elem_header, read_u16, read_u32, u16at, u32at,
    if_neg hA, if_neg hB, if_neg hC,
    show off + 2 + 1 = off + 3 from by omega,
    show off + 2 + 2 = off + 4 from by omega,
    show off + 2 + 2 + 1 = off + 5 from by omega,
    show off + 2 + 2 + 2 = off + 6 from by omega,
    show off + 2 + 2 + 3 = off + 7 from by omega,
    show off + 2 + 2 + 4 = off + 8 from by omega]

/-- Explicit-mode short-form header equation: a VR outside the long set
takes a 16-bit length; 8 bytes consumed. -/
theorem reh_explicit_short {buf : List Nat} {off : Nat} (e : Endianness)
    (h8 : off + 8 ≤ buf.length)
    (hvr : vrIsLong (buf.getD (off + 4) 0, buf.getD (off + 5) 0) = false) :
    read_elem_header buf off e .Explicit =
    some ({ group := u16at buf off e, element := u16at buf (off + 2) e,
            vr := some (buf.getD (off + 4) 0, buf.getD (off + 5) 0),
            len := u16at buf (off + 6) e }, off + 8) := by
  have hA : ¬ buf.length < off + 2 := by omega
  have hB : ¬ buf.length < off + 2 + 2 := by omega
  have hC : ¬ buf.length < off + 4 + 2 := by omega
  have hD : ¬ buf.length < off + 6 + 2 := by omega
  simp only [read_elem_header, read_u16, read_u32, u16at, u32at,
    show off + 2 + 1 = off + 3 from by omega,
    show off + 2 + 2 = off + 4 from by omega,
    show off + 4 + 1 = off + 5 from by omega,
    show off + 4 + 2 = off + 6 from by omega,
    show off + 6 + 1 = off + 7 from by omega,
    show off + 6 + 2 = off + 8 from by omega,
    if_neg hA, if_neg hB, if_neg hC, if_neg hD, hvr]
  simp

/-- Explicit-mode long-form header equation: a VR in the long set skips
2 reserved bytes and takes a 32-bit length; 12 bytes consumed. -/
theorem reh_explicit_long {buf : List Nat} {off : Nat} (e : Endianness)
    (h12 : off + 12 ≤ buf.length)
    (hvr : vrIsLong (buf.getD (off + 4) 0, buf.getD (off + 5) 0) = true) :
    read_elem_header buf off e .Explicit =
    some ({ group := u16at buf off e, element := u16at buf (off + 2) e,
            vr := some (buf.getD (off + 4) 0, buf.getD (off + 5) 0),
            len := u32at buf (off + 8) e }, off + 12) := by
  have hA : ¬ buf.length < off + 2 := by omega
  have hB : ¬ buf.length < off + 2 + 2 := by omega
  have hC : ¬ buf.length < off + 4 + 2 := by omega
  have hD : ¬ buf.length < off + 6 + 2 := by omega
  have hE : ¬ buf.length < off + 8 + 4 := by omega
  simp only [read_elem_header, read_u16, read_u32, u16at, u32at,
    show off + 2 + 1 = off + 3 from by omega,
    show off + 2 + 2 = off + 4 from by omega,
    show off + 4 + 1 = off + 5 from by omega,
    show off + 4 + 2 = off + 6 from by omega,
    show off + 6 + 2 = off + 8 from by omega,
    show off + 8 + 1 = off + 9 from by omega,
    show off + 8 + 2 = off + 10 from by omega,
    show off + 8 + 3 = off + 11 from by omega,
    show off + 8 + 4 = off + 12 from by omega,
    if_neg hA, if_neg hB, if_neg hC, if_neg hD, if_neg hE, hvr]
  simp

/-- With fewer than 8 bytes left no header can be read in any mode. -/
theorem reh_none_short {buf : List Nat} {off : Nat} (e : Endianness) (m : VrMode)
    (h8 : buf.length < off + 8) :
    read_elem_header buf off e m = none := by
  unfold read_elem_header read_u16 read_u32
  by_cases c1 : buf.length < off + 2
  · simp only [if_pos c1]
  · simp only [if_neg c1]
    by_cases c2 : buf.length < off + 2 + 2
    · simp only [if_pos c2]
    · simp only [if_neg c2]
      cases m
      · by_cases c3 : buf.length < off + 2 + 2 + 2
        · simp only [if_pos c3]
        · simp only [if_neg c3]
          have c4 : buf.length < off + 2 + 2 + 2 + 2 := by omega
          simp only [if_pos c4]
          exact ite_self none
      · have c4 : buf.length < off + 2 + 2 + 4 := by omega
        simp only [if_pos c4]

/-- A long-form explicit header is refused when fewer than 12 bytes
remain. -/
theorem reh_none_long {buf : List Nat} {off : Nat} (e : Endianness)
    (h12 : buf.length < off + 12)
    (hvr : vrIsLong (buf.getD (off + 4) 0, buf.getD (off + 5) 0) = true) :
    read_elem_header buf off e .Explicit = none := by
  rcases Nat.lt_or_ge buf.length (off + 8) with h8 | h8
  · exact reh_none_short e .Explicit h8
  · have hA : ¬ buf.length < off + 2 := by omega
    have hB : ¬ buf.length < off + 2 + 2 := by omega
    have hC : ¬ buf.length < off + 4 + 2 := by omega
    have hD : ¬ buf.length < off + 6 + 2 := by omega
    have hE : buf.length < off + 8 + 4 := by omega
    simp only [read_elem_header, read_u16, read_u32,
      show off + 2 + 2 = off + 4 from by omega,
      show off + 4 + 1 = off + 5 from by omega,
      show off + 4 + 2 = off + 6 from by omega,
      show off + 6 + 2 = off + 8 from by omega,
      if_neg hA, if_neg hB, if_neg hC, if_neg hD, if_pos hE, hvr]
    simp

/-- A successful header read advances by at least 8 bytes and never past
the end of the buffer. -/
theorem read_elem_header_some {buf : List Nat} {off : Nat} {e : Endianness}
    {m : VrMode} {h : ElemHeader} {off1 : Nat}
    (hr : read_elem_header buf off e m = some (h, off1)) :
    off + 8 ≤ off1 ∧ off1 ≤ buf.length := by
  cases m with
  | Explicit =>
    by_cases h8 : buf.length < off + 8
    · rw [reh_none_short e .Explicit h8] at hr; cases hr
    · by_cases hvr : vrIsLong (buf.getD (off + 4) 0, buf.getD (off + 5) 0) = true
      · by_cases h12 : buf.length < off + 12
        · rw [reh_none_long e h12 hvr] at hr; cases hr
        · rw [reh_explicit_long e (by omega) hvr] at hr
          simp only [Option.some.injEq, Prod.mk.injEq] at hr
          omega
      · rw [reh_explicit_short e (by omega) (by simpa using hvr)] at hr
        simp only [Option.some.injEq, Prod.mk.injEq] at hr
        omega
  | Implicit =>
    by_cases h8 : buf.length < off + 8
    · rw [reh_none_short e .Implicit h8] at hr; cases hr
    · rw [reh_implicit e (by omega)] at hr
      simp only [Option.some.injEq, Prod.mk.injEq] at hr
      omega

/-- The file-meta scan never exhausts its fuel when the fuel is at least
an eighth of the remaining bytes plus one: each iteration consumes at
least 8 bytes. -/
theorem fileMetaLoop_isSome (buf : List Nat) : ∀ (fuel off : Nat),
    buf.length + 8 ≤ off + 8 * fuel → (fileMetaLoop buf fuel off).isSome := by
  intro fuel
  induction fuel with
  | zero =>
    intro off hf
    unfold fileMetaLoop
    rw [reh_none_short .Little .Explicit (by omega)]
    rfl
  | succ n ih =>
    intro off hf
    unfold fileMetaLoop
    cases hr : read_elem_header buf off .Little .Explicit with
    | none => rfl
    | some p =>
      obtain ⟨h, off1⟩ := p
      obtain ⟨hadv, hle⟩ := read_elem_header_some hr
      simp only []
      by_cases hg : h.group ≠ 0x0002
      · rw [if_pos hg]; rfl
      · rw [if_neg hg]
        by_cases hb : buf.length < off1 + h.len
        · rw [if_pos hb]; rfl
        · rw [if_neg hb]
          exact ih (off1 + h.len) (by omega)

/-- Appending a main element leaves the file-meta region unchanged. -/
theorem Dataset.push_file_meta (ds : Dataset) (e : DataElement) :
    (ds.push e).file_meta = ds.file_meta := rfl

/-- Setting pixel data leaves the file-meta region unchanged. -/
theorem Dataset.set_pixel_data_file_meta (ds : Dataset) (d : List Nat) :
    (ds.set_pixel_data d).file_meta = ds.file_meta := rfl

/-- The main walker never exhausts its fuel under the same 8-bytes-per-
iteration bound. -/
theorem mainLoop_isSome (dict : List DicomAttribute) (buf : List Nat)
    (ts : TransferSyntax) : ∀ (fuel off : Nat) (ds : Dataset) (diags : List (List Char)),
    buf.length + 8 ≤ off + 8 * fuel →
    (mainLoop dict buf ts fuel off ds diags).isSome := by
  intro fuel
  induction fuel with
  | zero =>
    intro off ds diags hf
    unfold mainLoop
    rw [if_pos (by omega)]
    rfl
  | succ n ih =>
    intro off ds diags hf
    unfold mainLoop
    by_cases h8 : buf.length < off + 8
    · rw [if_pos h8]; rfl
    · rw [if_neg h8]
      cases hr : read_elem_header buf off ts.endian ts.vr_mode with
      | none => rfl
      | some p =>
        obtain ⟨h, off1⟩ := p
        obtain ⟨hadv, hle⟩ := read_elem_header_some hr
        simp only []
        by_cases hu : h.len = 0xFFFFFFFF
        · rw [if_pos hu]; rfl
        · rw [if_neg hu]
          by_cases hb : buf.length < off1 + h.len
          · rw [if_pos hb]; rfl
          · rw [if_neg hb]
            by_cases hp : h.group = 0x7FE0 ∧ h.element = 0x0010
            · rw [if_pos hp]
              cases attribute_by_tag dict (tagString h.group h.element) with
              | some attr => exact ih (off1 + h.len) _ diags (by omega)
              | none => exact ih (off1 + h.len) _ diags (by omega)
            · rw [if_neg hp]
              cases attribute_by_tag dict (tagString h.group h.element) with
              | some attr => exact ih (off1 + h.len) _ diags (by omega)
              | none => exact ih (off1 + h.len) _ diags (by omega)

/-- The main walker never touches the file-meta region of the dataset it
accumulates. -/
theorem mainLoop_file_meta (dict : List DicomAttribute) (buf : List Nat)
    (ts : TransferSyntax) : ∀ (fuel off : Nat) (ds : Dataset)
    (diags : List (List Char)) (d : Dataset) (dg : List (List Char)),
    mainLoop dict buf ts fuel off ds diags = some (d, dg) →
    d.file_meta = ds.file_meta := by
  intro fuel
  induction fuel with
  | zero =>
    intro off ds diags d dg hml
    unfold mainLoop at hml
    by_cases h8 : buf.length < off + 8
    · rw [if_pos h8] at hml
      simp only [Option.some.injEq, Prod.mk.injEq] at hml
      rw [← hml.1]
    · rw [if_neg h8] at hml
      cases hr : read_elem_header buf off ts.endian ts.vr_mode with
      | none =>
        rw [hr] at hml
        simp only [Option.some.injEq, Prod.mk.injEq] at hml
        rw [← hml.1]
      | some p =>
        obtain ⟨h, off1⟩ := p
        rw [hr] at hml
        simp only [] at hml
        by_cases hu : h.len = 0xFFFFFFFF
        · rw [if_pos hu] at hml
          simp only [Option.some.injEq, Prod.mk.injEq] at hml
          rw [← hml.1]
        · rw [if_neg hu] at hml
          by_cases hb : buf.length < off1 + h.len
          · rw [if_pos hb] at hml
            simp only [Option.some.injEq, Prod.mk.injEq] at hml
            rw [← hml.1]
          · rw [if_neg hb] at hml
            cases hml
  | succ n ih =>
    intro off ds diags d dg hml
    unfold mainLoop at hml
    by_cases h8 : buf.length < off + 8
    · rw [if_pos h8] at hml
      simp only [Option.some.injEq, Prod.mk.injEq] at hml
      rw [← hml.1]
    · rw [if_neg h8] at hml
      cases hr : read_elem_header buf off ts.endian ts.vr_mode with
      | none =>
        rw [hr] at hml
        simp only [Option.some.injEq, Prod.mk.injEq] at hml
        rw [← hml.1]
      | some p =>
        obtain ⟨h, off1⟩ := p
        rw [hr] at hml
        simp only [] at hml
        by_cases hu : h.len = 0xFFFFFFFF
        · rw [if_pos hu] at hml
          simp only [Option.some.injEq, Prod.mk.injEq] at hml
          rw [← hml.1]
        · rw [if_neg hu] at hml
          by_cases hb : buf.length < off1 + h.len
          · rw [if_pos hb] at hml
            simp only [Option.some.injEq, Prod.mk.injEq] at hml
            rw [← hml.1]
          · rw [if_neg hb] at hml
            by_cases hp : h.group = 0x7FE0 ∧ h.element = 0x0010
            · rw [if_pos hp] at hml
              cases ha : attribute_by_tag dict (tagString h.group h.element) with
              | some attr =>
                simp only [ha] at hml
                exact (ih _ _ _ _ _ hml).trans rfl
              | none =>
                simp only [ha] at hml
                exact (ih _ _ _ _ _ hml).trans rfl
            · rw [if_neg hp] at hml
              cases ha : attribute_by_tag dict (tagString h.group h.element) with
              | some attr =>
                simp only [ha] at hml
                exact (ih _ _ _ _ _ hml).trans rfl
              | none =>
                simp only [ha] at hml
                exact (ih _ _ _ _ _ hml).trans rfl

/-- **C2.** The claim says the group-0x0002 elements scanned by the
File-Meta parser are preserved in the returned Dataset and reachable via
`file_meta()`.  The code never stores them: `parse_file_meta` only skips
group-0x0002 elements and `Dataset::set_file_meta` is never called, so
the `file_meta` region of every dataset the reader returns is empty —
for every dictionary and every input buffer whatsoever. -/
theorem C2_file_meta_never_preserved (dict : List DicomAttribute)
    (buf : List Nat) : (read_dicom dict buf).file_meta = [] := by
  unfold read_dicom read_dicom_run
  by_cases h1 : buf.length < 132
  · rw [if_pos h1]; rfl
  · rw [if_neg h1]
    by_cases h2 : (buf.drop 128).take 4 ≠ dicmBytes
    · rw [if_pos h2]; rfl
    · rw [if_neg h2]
      cases hp : parse_file_meta buf 132 with
      | none => rfl
      | some r =>
        cases r with
        | none => rfl
        | some p =>
          obtain ⟨ts, off⟩ := p
          simp only []
          cases hm : mainLoop dict buf ts (buf.length + 8) off Dataset.new [] with
          | none => rfl
          | some q =>
            obtain ⟨d, dg⟩ := q
            simp only [Option.getD_some]
            exact mainLoop_file_meta dict buf ts _ _ _ _ _ _ hm

/-- **C3.** `read(bytes) → Dataset` is a total function: for every input
byte sequence the reader pipeline produces a result — the only branch of
the embedding with no counterpart in the source (fuel exhaustion) is
unreachable, and every source-level failure branch maps to a recovery
value, so `read_dicom` always returns a `Dataset`. -/
theorem C3_read_total (dict : List DicomAttribute) (buf : List Nat) :
    (read_dicom_run dict buf).isSome = true ∧
    read_dicom dict buf = ((read_dicom_run dict buf).getD (Dataset.new, [])).1 := by
  refine ⟨?_, rfl⟩
  unfold read_dicom_run
  by_cases h1 : buf.length < 132
  · rw [if_pos h1]; rfl
  · rw [if_neg h1]
    by_cases h2 : (buf.drop 128).take 4 ≠ dicmBytes
    · rw [if_pos h2]; rfl
    · rw [if_neg h2]
      cases hp : parse_file_meta buf 132 with
      | none =>
        exfalso
        have hfm : (fileMetaLoop buf (buf.length + 8) 132).isSome :=
          fileMetaLoop_isSome buf (buf.length + 8) 132 (by omega)
        unfold parse_file_meta at hp
        cases hgl : fileMetaLoop buf (buf.length + 8) 132 with
        | none => rw [hgl] at hfm; exact absurd hfm (by simp)
        | some r => rw [hgl] at hp; exact absurd hp (by simp)
      | some r =>
        cases r with
        | none => rfl
        | some p =>
          obtain ⟨ts, off⟩ := p
          simp only []
          exact mainLoop_isSome dict buf ts (buf.length + 8) off Dataset.new []
            (by omega)

/-- **C5.** Any buffer shorter than 132 bytes, or whose bytes 128..132
differ from `"DICM"`, yields the empty dataset: no elements, no
file-meta, no pixel data. -/
theorem C5_not_part10_empty (dict : List DicomAttribute) (buf : List Nat)
    (h : buf.length < 132 ∨ (buf.drop 128).take 4 ≠ dicmBytes) :
    read_dicom dict buf = Dataset.new ∧
    (read_dicom dict buf).elements = [] ∧
    (read_dicom dict buf).file_meta = [] ∧
    (read_dicom dict buf).pixel_data = none := by
  have hnew : read_dicom dict buf = Dataset.new := by
    unfold read_dicom read_dicom_run
    by_cases h1 : buf.length < 132
    · rw [if_pos h1]; rfl
    · rw [if_neg h1]
      have h2 : (buf.drop 128).take 4 ≠ dicmBytes := h.resolve_left h1
      rw [if_pos h2]; rfl
  exact ⟨hnew, by rw [hnew]; rfl, by rw [hnew]; rfl, by rw [hnew]; rfl⟩

/-- Witness for C5 at the empty buffer. -/
theorem C5_not_part10_empty_witness :
    read_dicom [] [] = Dataset.new ∧
    (read_dicom [] []).elements = [] ∧
    (read_dicom [] []).file_meta = [] ∧
    (read_dicom [] []).pixel_data = none :=
  C5_not_part10_empty [] [] (Or.inl (by decide))

/-- **C4.** When at least 8 bytes remain and the element header read at
the current cursor succeeds, then: if the declared length is the
undefined-length sentinel `0xFFFFFFFF`, the walker stops and returns the
dataset accumulated so far unchanged, appending the undefined-length
stderr line; if instead the cursor after the header plus the declared
length overruns the buffer, the walker stops and returns the dataset
accumulated so far unchanged, appending the truncation stderr line.  In
both cases no element for the faulting header is appended. -/
theorem C4_fault_returns_accumulated (dict : List DicomAttribute)
    (buf : List Nat) (ts : TransferSyntax) (fuel off : Nat) (ds : Dataset)
    (diags : List (List Char)) (h : ElemHeader) (off1 : Nat)
    (h8 : ¬ buf.length < off + 8)
    (hr : read_elem_header buf off ts.endian ts.vr_mode = some (h, off1)) :
    (h.len = 0xFFFFFFFF →
      mainLoop dict buf ts fuel off ds diags =
        some (ds, diags ++ [undefLenMsg h.group h.element])) ∧
    (h.len ≠ 0xFFFFFFFF → buf.length < off1 + h.len →
      mainLoop dict buf ts fuel off ds diags =
        some (ds, diags ++ [truncMsg h.group h.element])) := by
  constructor
  · intro hu
    unfold mainLoop
    rw [if_neg h8]
    simp only [hr]
    rw [if_pos hu]
  · intro hu hb
    unfold mainLoop
    rw [if_neg h8]
    simp only [hr]
    rw [if_neg hu, if_pos hb]

/-- Witness for C4: an implicit-VR element with the sentinel length and
one whose declared length 10 overruns an 8-byte stream. -/
theorem C4_fault_returns_accumulated_witness :
    mainLoop [] [8, 0, 96, 0, 255, 255, 255, 255]
      { endian := .Little, vr_mode := .Implicit } 3 0 Dataset.new [] =
      some (Dataset.new, [undefLenMsg 8 96]) ∧
    mainLoop [] [8, 0, 96, 0, 10, 0, 0, 0]
      { endian := .Little, vr_mode := .Implicit } 3 0 Dataset.new [] =
      some (Dataset.new, [truncMsg 8 96]) :=
  ⟨(C4_fault_returns_accumulated [] [8, 0, 96, 0, 255, 255, 255, 255]
      { endian := .Little, vr_mode := .Implicit } 3 0 Dataset.new []
      { group := 8, element := 96, vr := none, len := 4294967295 } 8
      (by decide) (by decide)).1 rfl,
   (C4_fault_returns_accumulated [] [8, 0, 96, 0, 10, 0, 0, 0]
      { endian := .Little, vr_mode := .Implicit } 3 0 Dataset.new []
      { group := 8, element := 96, vr := none, len := 10 } 8
      (by decide) (by decide)).2 (by decide) (by decide)⟩

/-- **C1.** The claim says the reader decodes the `(0002,0010)` value and
resolves the transfer syntax through the fixed table, defaulting to
Implicit VR Little Endian only when no UID was found.  The resolution
table itself does map `"1.2.840.10008.1.2.1"` to Explicit VR Little
Endian — but `parse_file_meta` initializes its `ts_uid` to the empty
string and never assigns it while scanning, so on a File Meta that
carries exactly that UID the parser still resolves Implicit VR Little
Endian, and the main dataset is then parsed with implicit-VR header
rules (the element `(0008,0060)` below is only recovered because the
demonstration buffer encodes it implicitly). -/
theorem C1_transfer_syntax_uid_ignored :
    ts_from_uid (chars "1.2.840.10008.1.2.1") =
      { endian := .Little, vr_mode := .Explicit } ∧
    parse_file_meta c1buf 132 =
      some (some ({ endian := .Little, vr_mode := .Implicit }, 160)) ∧
    (read_dicom sampleDict c1buf).elements =
      [DataElement.mk modalityAttr (some (.String (chars "CT")))] :=
  ⟨by decide, by decide, by rfl⟩

/-- The head of a `dropWhile` result fails the predicate. -/
theorem dropWhile_head_false {p : Char → Bool} : ∀ (l : List Char) (x : Char),
    (l.dropWhile p).head? = some x → p x = false := by
  intro l
  induction l with
  | nil => intro x hx; simp at hx
  | cons a t ih =>
    intro x hx
    by_cases hp : p a
    · rw [List.dropWhile_cons_of_pos hp] at hx
      exact ih x hx
    · rw [List.dropWhile_cons_of_neg hp] at hx
      simp only [List.head?_cons, Option.some.injEq] at hx
      rw [← hx]
      exact Bool.not_eq_true _ |>.mp hp

/-- `dropWhile` is idempotent. -/
theorem dropWhile_idem {p : Char → Bool} (l : List Char) :
    (l.dropWhile p).dropWhile p = l.dropWhile p := by
  cases h : l.dropWhile p with
  | nil => rfl
  | cons a t =>
    have ha : p a = false := dropWhile_head_false l a (by rw [h]; rfl)
    rw [List.dropWhile_cons_of_neg (by simp [ha])]

/-- A nonempty `dropWhile` result keeps the last element of the list. -/
theorem dropWhile_getLast?_of_ne_nil {p : Char → Bool} : ∀ (l : List Char),
    l.dropWhile p ≠ [] → (l.dropWhile p).getLast? = l.getLast? := by
  intro l
  induction l with
  | nil => intro h; simp at h
  | cons a t ih =>
    intro hne
    by_cases hp : p a
    · rw [List.dropWhile_cons_of_pos hp] at hne ⊢
      have ht : t ≠ [] := by
        intro he; rw [he] at hne; simp at hne
      obtain ⟨b, t', rfl⟩ := List.exists_cons_of_ne_nil ht
      rw [ih hne, List.getLast?_cons_cons]
    · rw [List.dropWhile_cons_of_neg hp]

/-- A trimmed string has no leading or trailing whitespace. -/
theorem trimChars_head_last (l : List Char) :
    (∀ x, (trimChars l).head? = some x → isRustWhite x = false) ∧
    (∀ x, (trimChars l).getLast? = some x → isRustWhite x = false) := by
  unfold trimChars
  constructor
  · intro x hx
    rw [List.head?_reverse] at hx
    have hne : (l.dropWhile isRustWhite).reverse.dropWhile isRustWhite ≠ [] := by
      intro he; rw [he] at hx; simp at hx
    rw [dropWhile_getLast?_of_ne_nil _ hne, List.getLast?_reverse] at hx
    cases hm : l.dropWhile isRustWhite with
    | nil => rw [hm] at hx; simp at hx
    | cons a t =>
      rw [hm] at hx
      simp only [List.head?_cons, Option.some.injEq] at hx
      rw [← hx]
      exact dropWhile_head_false l a (by rw [hm]; rfl)
  · intro x hx
    rw [List.getLast?_reverse] at hx
    exact dropWhile_head_false _ x hx

/-- Trimming a string with no leading or trailing whitespace changes
nothing. -/
theorem trimChars_eq_self (l : List Char)
    (h1 : ∀ x, l.head? = some x → isRustWhite x = false)
    (h2 : ∀ x, l.getLast? = some x → isRustWhite x = false) :
    trimChars l = l := by
  unfold trimChars
  have hd : l.dropWhile isRustWhite = l := by
    cases l with
    | nil => rfl
    | cons a t =>
      exact List.dropWhile_cons_of_neg (by simp [h1 a rfl])
  rw [hd]
  have hr : l.reverse.dropWhile isRustWhite = l.reverse := by
    cases hl : l.reverse with
    | nil => rfl
    | cons a t =>
      have : l.getLast? = some a := by
        rw [List.getLast?_eq_head?_reverse, hl]; rfl
      rw [List.dropWhile_cons_of_neg (by simp [h2 a this])]
  rw [hr, List.reverse_reverse]

/-- Trimming is idempotent. -/
theorem trimChars_idem (l : List Char) : trimChars (trimChars l) = trimChars l :=
  trimChars_eq_self _ (trimChars_head_last l).1 (trimChars_head_last l).2

/-- **C9.** `normalize_tag` is idempotent on every input: the verbatim
parenthesized branch returns a trimmed string that re-normalizes to
itself, the 8-hex-digit branch produces a parenthesized string that the
verbatim branch then returns unchanged, and the pass-through branch
returns a trimmed string whose hex-digit count is unchanged. -/
theorem C9_normalize_tag_idempotent (x : List Char) :
    normalize_tag (normalize_tag x) = normalize_tag x := by
  by_cases hc : (trimChars x).head? = some '(' ∧ (trimChars x).getLast? = some ')' ∧
      ',' ∈ trimChars x
  · have hy : normalize_tag x = trimChars x := by
      simp only [normalize_tag]; rw [if_pos hc]
    rw [hy]
    simp only [normalize_tag]
    rw [trimChars_idem, if_pos hc]
  · by_cases hh : (((trimChars x).filter isAsciiHexdigit).map toAsciiUpper).length = 8
    · have hy : normalize_tag x =
          '(' :: ((((trimChars x).filter isAsciiHexdigit).map toAsciiUpper).take 4 ++
            [','] ++ (((trimChars x).filter isAsciiHexdigit).map toAsciiUpper).drop 4 ++
            [')']) := by
        simp only [normalize_tag]; rw [if_neg hc, if_pos hh]
      rw [hy]
      have hlast : ('(' :: ((((trimChars x).filter isAsciiHexdigit).map toAsciiUpper).take 4 ++
          [','] ++ (((trimChars x).filter isAsciiHexdigit).map toAsciiUpper).drop 4 ++
          [')'])).getLast? = some ')' := by
        rw [show ('(' :: ((((trimChars x).filter isAsciiHexdigit).map toAsciiUpper).take 4 ++
          [','] ++ (((trimChars x).filter isAsciiHexdigit).map toAsciiUpper).drop 4 ++
          [')'])) = ('(' :: ((((trimChars x).filter isAsciiHexdigit).map toAsciiUpper).take 4 ++
          [','] ++ (((trimChars x).filter isAsciiHexdigit).map toAsciiUpper).drop 4)) ++
          [')'] from by simp]
        exact List.getLast?_concat _
      have htrim : trimChars ('(' :: ((((trimChars x).filter isAsciiHexdigit).map
          toAsciiUpper).take 4 ++ [','] ++ (((trimChars x).filter
          isAsciiHexdigit).map toAsciiUpper).drop 4 ++ [')'])) =
          '(' :: ((((trimChars x).filter isAsciiHexdigit).map toAsciiUpper).take 4 ++
          [','] ++ (((trimChars x).filter isAsciiHexdigit).map toAsciiUpper).drop 4 ++
          [')']) := by
        apply trimChars_eq_self
        · intro c hcx
          simp only [List.head?_cons, Option.some.injEq] at hcx
          rw [← hcx]; decide
        · intro c hcx
          rw [hlast] at hcx
          simp only [Option.some.injEq] at hcx
          rw [← hcx]; decide
      simp only [normalize_tag]
      rw [htrim, if_pos ⟨rfl, hlast, by simp⟩]
    · have hy : normalize_tag x = trimChars x := by
        simp only [normalize_tag]; rw [if_neg hc, if_neg hh]
      rw [hy]
      simp only [normalize_tag]
      rw [trimChars_idem, if_neg hc, if_neg hh]

/-- **C6.** The element-header layouts, for every buffer, cursor and
endianness: Implicit VR mode reads tag then a 32-bit length (8 bytes
consumed, `vr` absent); Explicit VR mode reads a 2-byte VR code after
the tag, and when the code is in the long set (OB, OW, OF, SQ, UT, UN)
skips 2 reserved bytes and reads a 32-bit length (12 bytes consumed),
while every other code takes a 16-bit length, a value below 2^16 stored
in the 32-bit length field (8 bytes consumed); every multi-byte field
is decoded with the supplied endianness (`u16at`/`u32at`), and on
truncation — fewer than 8 bytes in any mode, or fewer than 12 for a
long-form explicit header — the result is absent. -/
theorem C6_header_layout (buf : List Nat) (off : Nat) (e : Endianness) :
    (off + 8 ≤ buf.length →
      read_elem_header buf off e .Implicit =
        some ({ group := u16at buf off e, element := u16at buf (off + 2) e,
                vr := none, len := u32at buf (off + 4) e }, off + 8)) ∧
    (off + 8 ≤ buf.length →
      vrIsLong (buf.getD (off + 4) 0, buf.getD (off + 5) 0) = false →
      read_elem_header buf off e .Explicit =
        some ({ group := u16at buf off e, element := u16at buf (off + 2) e,
                vr := some (buf.getD (off + 4) 0, buf.getD (off + 5) 0),
                len := u16at buf (off + 6) e }, off + 8)) ∧
    (off + 12 ≤ buf.length →
      vrIsLong (buf.getD (off + 4) 0, buf.getD (off + 5) 0) = true →
      read_elem_header buf off e .Explicit =
        some ({ group := u16at buf off e, element := u16at buf (off + 2) e,
                vr := some (buf.getD (off + 4) 0, buf.getD (off + 5) 0),
                len := u32at buf (off + 8) e }, off + 12)) ∧
    (buf.length < off + 8 → ∀ m : VrMode, read_elem_header buf off e m = none) ∧
    (buf.length < off + 12 →
      vrIsLong (buf.getD (off + 4) 0, buf.getD (off + 5) 0) = true →
      read_elem_header buf off e .Explicit = none) :=
  ⟨fun h8 => reh_implicit e h8,
   fun h8 hvr => reh_explicit_short e h8 hvr,
   fun h12 hvr => reh_explicit_long e h12 hvr,
   fun h8 m => reh_none_short e m h8,
   fun h12 hvr => reh_none_long e h12 hvr⟩

/-- Witness for C6: concrete implicit little-endian, implicit
big-endian, explicit short (`UI`), explicit long (`OB`), and two
truncated headers. -/
theorem C6_header_layout_witness :
    read_elem_header [8, 0, 96, 0, 2, 0, 0, 0] 0 .Little .Implicit =
      some ({ group := 8, element := 96, vr := none, len := 2 }, 8) ∧
    read_elem_header [0, 8, 0, 96, 0, 0, 0, 2] 0 .Big .Implicit =
      some ({ group := 8, element := 96, vr := none, len := 2 }, 8) ∧
    read_elem_header [8, 0, 96, 0, 85, 73, 4, 0] 0 .Little .Explicit =
      some ({ group := 8, element := 96, vr := some (85, 73), len := 4 }, 8) ∧
    read_elem_header [8, 0, 96, 0, 79, 66, 0, 0, 1, 0, 0, 0] 0 .Little .Explicit =
      some ({ group := 8, element := 96, vr := some (79, 66), len := 1 }, 12) ∧
    read_elem_header [8, 0, 96, 0, 85, 73, 4] 0 .Little .Explicit = none ∧
    read_elem_header [8, 0, 96, 0, 79, 66, 0, 0, 1, 0, 0] 0 .Little .Explicit = none := by
  refine ⟨?_, ?_, ?_, ?_, ?_, ?_⟩
  · have h := (C6_header_layout [8, 0, 96, 0, 2, 0, 0, 0] 0 .Little).1 (by decide)
    simpa using h
  · have h := (C6_header_layout [0, 8, 0, 96, 0, 0, 0, 2] 0 .Big).1 (by decide)
    simpa using h
  · have h := (C6_header_layout [8, 0, 96, 0, 85, 73, 4, 0] 0 .Little).2.1
      (by decide) (by decide)
    simpa using h
  · have h := (C6_header_layout [8, 0, 96, 0, 79, 66, 0, 0, 1, 0, 0, 0] 0 .Little).2.2.1
      (by decide) (by decide)
    simpa using h
  · exact (C6_header_layout [8, 0, 96, 0, 85, 73, 4] 0 .Little).2.2.2.1
      (by decide) .Explicit
  · exact (C6_header_layout [8, 0, 96, 0, 79, 66, 0, 0, 1, 0, 0] 0 .Little).2.2.2.2
      (by decide) (by decide)

/-- **C7.** `Dataset.get` first interprets the query as a tag
(normalizing it and consulting the dictionary); when that resolves, the
result is the first element of the file-meta elements followed by the
main elements whose attribute tag equals the resolved canonical tag —
file-meta searched before main, matching by tag-string equality.  Only
when tag interpretation fails is the query interpreted as a keyword,
with the same search; when neither interpretation resolves, the result
is absent. -/
theorem C7_get_resolution_order (dict : List DicomAttribute) (ds : Dataset)
    (s : List Char) :
    (∀ a, attribute_by_tag dict s = some a →
      Dataset.get dict ds s =
        (ds.file_meta ++ ds.data_elements).find? (fun de => de.attr.tag == a.tag)) ∧
    (attribute_by_tag dict s = none → ∀ b, attribute_by_keyword dict s = some b →
      Dataset.get dict ds s =
        (ds.file_meta ++ ds.data_elements).find? (fun de => de.attr.tag == b.tag)) ∧
    (attribute_by_tag dict s = none → attribute_by_keyword dict s = none →
      Dataset.get dict ds s = none) := by
  refine ⟨?_, ?_, ?_⟩
  · intro a ha
    unfold Dataset.get
    simp only [ha, List.find?_append]
    cases hf : ds.file_meta.find? (fun de => de.attr.tag == a.tag) with
    | some f => simp [hf]
    | none => simp [hf]
  · intro hn b hb
    unfold Dataset.get
    simp only [hn, hb, List.find?_append]
    cases hf : ds.file_meta.find? (fun de => de.attr.tag == b.tag) with
    | some f => simp [hf]
    | none => simp [hf]
  · intro hn hk
    unfold Dataset.get
    simp only [hn, hk]

/-- A hand-built dataset with one file-meta element shadowing a main
element of the same tag, for the C7 witness. -/
def demoDs : Dataset :=
  { file_meta := [DataElement.mk tsUidAttr (some (.String (chars "A")))],
    data_elements := [DataElement.mk tsUidAttr (some (.String (chars "B"))),
                      DataElement.mk modalityAttr (some (.String (chars "CT")))],
    pixel_data := none }

/-- Witness for C7: a numeric-literal query resolved as a tag finds the
file-meta element before the main element of the same tag; a keyword
query resolves only after tag interpretation fails; an unknown query
yields none. -/
theorem C7_get_resolution_order_witness :
    Dataset.get sampleDict demoDs (chars "00020010") =
      some (DataElement.mk tsUidAttr (some (.String (chars "A")))) ∧
    Dataset.get sampleDict demoDs (chars "TransferSyntaxUID") =
      some (DataElement.mk tsUidAttr (some (.String (chars "A")))) ∧
    Dataset.get sampleDict demoDs (chars "NoSuchThing") = none :=
  ⟨((C7_get_resolution_order sampleDict demoDs (chars "00020010")).1 tsUidAttr
      (by decide)).trans (by rfl),
   ((C7_get_resolution_order sampleDict demoDs (chars "TransferSyntaxUID")).2.1
      (by decide) tsUidAttr (by decide)).trans (by rfl),
   (C7_get_resolution_order sampleDict demoDs (chars "NoSuchThing")).2.2
      (by decide) (by decide)⟩

/-- Demonstration buffer for C8: a Part-10 preamble followed by a single
implicit-VR main-dataset element `(0008,0060)` with declared length
zero. -/
def c8buf : List Nat :=
  preamble ++ [0x08, 0x00, 0x60, 0x00, 0x00, 0x00, 0x00, 0x00]

/-- **C8 counterexample.** The claim says an element present with
declared length zero (and not pixel data) is appended with its value
absent.  On a concrete zero-length `(0008,0060)` element the appended
`DataElement` carries `some (String "")` — a present, empty-string
value, not an absent one — refuting the claim (and matching the spec's
own boundary-behavior section instead). -/
theorem C8_zero_length_counterexample :
    (read_dicom sampleDict c8buf).elements =
      [DataElement.mk modalityAttr (some (DataElementValue.String []))] ∧
    (read_dicom sampleDict c8buf).elements.map (fun de => de.value) =
      [some (DataElementValue.String [])] ∧
    some (DataElementValue.String []) ≠ (none : Option DataElementValue) :=
  ⟨rfl, rfl, by simp⟩

/-- **C8 amended.** A main-dataset element present with declared length
zero (and not the pixel-data tag, with its attribute found in the
dictionary) is appended with a present value: the walker pushes
`parse_value` of the empty value slice, which is the empty string for
text VRs and an empty raw `Data` for every other VR. -/
theorem C8_zero_length_value_amended (dict : List DicomAttribute) (buf : List Nat)
    (ts : TransferSyntax) (fuel off : Nat) (ds : Dataset) (diags : List (List Char))
    (h : ElemHeader) (off1 : Nat) (attr : DicomAttribute)
    (h8 : ¬ buf.length < off + 8)
    (hr : read_elem_header buf off ts.endian ts.vr_mode = some (h, off1))
    (hlen : h.len = 0)
    (hpx : ¬ (h.group = 0x7FE0 ∧ h.element = 0x0010))
    (ha : attribute_by_tag dict (tagString h.group h.element) = some attr) :
    mainLoop dict buf ts (fuel + 1) off ds diags =
      mainLoop dict buf ts fuel off1
        (ds.push (DataElement.mk attr (parse_value attr.vr ts.endian []))) diags ∧
    (parse_value attr.vr ts.endian [] = some (.String []) ∨
     parse_value attr.vr ts.endian [] = some (.Data [])) := by
  constructor
  · have hle : off1 ≤ buf.length := (read_elem_header_some hr).2
    conv_lhs => rw [mainLoop.eq_def]
    rw [if_neg h8]
    simp only [hr, hlen]
    rw [if_neg (by decide : ¬ (0 : Nat) = 0xFFFFFFFF),
      if_neg (by omega : ¬ buf.length < off1 + 0), if_neg hpx]
    simp only [ha, List.take_zero, Nat.add_zero]
  · cases hv : attr.vr with
    | none => exact Or.inr rfl
    | some v => cases v <;> first | exact Or.inl rfl | exact Or.inr rfl

/-- Witness for the amended C8 at the concrete zero-length element of
`c8buf`. -/
theorem C8_zero_length_value_amended_witness :
    mainLoop sampleDict c8buf { endian := .Little, vr_mode := .Implicit } (5 + 1) 132
        Dataset.new [] =
      mainLoop sampleDict c8buf { endian := .Little, vr_mode := .Implicit } 5 140
        (Dataset.new.push (DataElement.mk modalityAttr
          (parse_value modalityAttr.vr Endianness.Little []))) [] ∧
    (parse_value modalityAttr.vr Endianness.Little [] =
      some (DataElementValue.String []) ∨
     parse_value modalityAttr.vr Endianness.Little [] =
      some (DataElementValue.Data [])) :=
  C8_zero_length_value_amended sampleDict c8buf
    { endian := .Little, vr_mode := .Implicit } 5 132 Dataset.new []
    { group := 8, element := 96, vr := none, len := 0 } 140 modalityAttr
    (by decide) (by decide) rfl (by decide) (by decide)

/-- Reachability of an offset by the file-meta scan: each step reads a
group-0x0002 header in Explicit Little Endian whose value fits in the
buffer and skips it. -/
inductive FMReach (buf : List Nat) : Nat → Nat → Prop where
  | refl (off : Nat) : FMReach buf off off
  | step (off off1 off2 : Nat) (h : ElemHeader)
      (hr : read_elem_header buf off .Little .Explicit = some (h, off1))
      (hg : h.group = 0x0002)
      (hb : off1 + h.len ≤ buf.length)
      (htail : FMReach buf (off1 + h.len) off2) : FMReach buf off off2

/-- If the file-meta scan reaches an offset where the header read fails,
the whole scan fails (source-level `None`), for any sufficient fuel. -/
theorem fileMetaLoop_none_of_reach {buf : List Nat} : ∀ {off off2 : Nat},
    FMReach buf off off2 →
    read_elem_header buf off2 .Little .Explicit = none →
    ∀ fuel, buf.length + 8 ≤ off + 8 * fuel →
    fileMetaLoop buf fuel off = some none := by
  intro off off2 hreach
  induction hreach with
  | refl o =>
    intro hfail fuel hf
    unfold fileMetaLoop
    rw [hfail]
  | step o o1 o2 h hr hg hb htail ih =>
    intro hfail fuel hf
    obtain ⟨hadv, hle⟩ := read_elem_header_some hr
    cases fuel with
    | zero => omega
    | succ n =>
      unfold fileMetaLoop
      simp only [hr]
      rw [if_neg (by simp [hg]), if_neg (by omega)]
      exact ih hfail n (by omega)

/-- **C10.** When every element from offset 132 onward belongs to group
0x0002 and the bytes run out before another header can be read — the
file-meta scan reaches an offset where the header read fails — the
reader returns the completely empty dataset: `parse_file_meta`
propagates the failure as absent and the driver maps that to
`Dataset.new`, so nothing of the scanned file-meta information
survives. -/
theorem C10_truncated_file_meta_empty (dict : List DicomAttribute)
    (buf : List Nat) (off2 : Nat)
    (hlen : 132 ≤ buf.length)
    (hmagic : (buf.drop 128).take 4 = dicmBytes)
    (hreach : FMReach buf 132 off2)
    (hfail : read_elem_header buf off2 .Little .Explicit = none) :
    read_dicom dict buf = Dataset.new ∧
    (read_dicom dict buf).elements = [] ∧
    (read_dicom dict buf).file_meta = [] ∧
    (read_dicom dict buf).pixel_data = none := by
  have hfm : fileMetaLoop buf (buf.length + 8) 132 = some none :=
    fileMetaLoop_none_of_reach hreach hfail (buf.length + 8) (by omega)
  have hnew : read_dicom dict buf = Dataset.new := by
    unfold read_dicom read_dicom_run
    rw [if_neg (by omega), if_neg (by simp [hmagic])]
    unfold parse_file_meta
    rw [hfm]
    rfl
  exact ⟨hnew, by rw [hnew]; rfl, by rw [hnew]; rfl, by rw [hnew]; rfl⟩

/-- Demonstration buffer for C10: the preamble followed by a single
complete group-0x0002 element after which the buffer ends, so the next
header read fails. -/
def c10buf : List Nat :=
  preamble ++ [0x02, 0x00, 0x10, 0x00, 0x55, 0x49, 0x00, 0x00]

/-- Witness for C10 at a buffer ending exactly at the end of its File
Meta group. -/
theorem C10_truncated_file_meta_empty_witness :
    read_dicom sampleDict c10buf = Dataset.new ∧
    (read_dicom sampleDict c10buf).elements = [] ∧
    (read_dicom sampleDict c10buf).file_meta = [] ∧
    (read_dicom sampleDict c10buf).pixel_data = none :=
  C10_truncated_file_meta_empty sampleDict c10buf 140 (by decide) (by decide)
    (FMReach.step 132 140 140
      { group := 2, element := 16, vr := some (85, 73), len := 0 }
      (by decide) rfl (by decide) (FMReach.refl 140))
    (by decide)
